import Mathlib

/-!
# Verification of the Cerbos embedded-PDP React Native bridge

Shallow embedding of the RPC bridge of this repository:

* `WebViewBridge` models the native-side correlation table, ready-waiter
  list and reload cleanup of `src/components/cerbos-embedded-webview.tsx`
  (`postRpc`, `onMessage`, `handleWebViewReload`, `onLoadStart`,
  `awaitReady`, `resolveReady`), together with the callback-dispatch
  branch of `onMessage`.
* `Provider` models the request-batching scheduler of
  `src/components/CerbosContext.tsx` (`processBatch`, `cleanupRequest`,
  `handleResponse`, `checkResources`).
* `SandboxBridge` models the chunked-upload manager of
  `src/scripts/cerbos-webview-bridge.ts` (`wasmUpload`).

Stateful TypeScript is modelled as explicit state passing; the
single-threaded JavaScript event loop is modelled by a trace of atomic
events, and host-runtime guarantees (a cleared timer never fires, a timer
fires no earlier than its delay) are encoded in the trace-validity
predicate `evOk`.
-/

namespace CerbosRN

namespace WebViewBridge

/-- One entry of the native pending-request map (`pendingRef` in
`cerbos-embedded-webview.tsx`).  The stored `resolve`/`reject` callbacks
are modelled by the `Settle` log below; the armed timeout handle is
modelled by the entry itself (the timer is armed exactly while the entry
is in the map, since `clearTimeout` is invoked at every deletion site).
`method`, `timeoutMs` and `sentAt` are the values the `postRpc` promise
executor closes over. -/
structure PendingEntry where
  method : String
  timeoutMs : Nat
  sentAt : Nat
  deriving Repr, DecidableEq

/-- A record of one invocation of a stored `resolve`/`reject` callback —
either of a pending RPC promise (`resolved`/`rejected`, carrying the
request id) or of a ready-waiter promise. -/
inductive Settle where
  | resolved (id : String)
  | rejected (id : String) (message : String)
  | waiterResolved
  | waiterRejected (message : String)
  deriving Repr, DecidableEq

/-- The RPC id a settle record belongs to (none for ready-waiters). -/
def Settle.rpcId : Settle → Option String
  | .resolved id => some id
  | .rejected id _ => some id
  | .waiterResolved => none
  | .waiterRejected _ => none

/-- Mutable state of one `CerbosEmbeddedWebView` instance: `isReady`
state, `pendingRef` map (insertion ordered, modelling `Map`),
`readyWaitersRef` (only the count matters, waiters carry no data),
`wasmUploadedRef`, plus the log of callback invocations. -/
structure BridgeState where
  isReady : Bool
  pending : List (String × PendingEntry)
  readyWaiters : Nat
  wasmUploaded : Bool
  settles : List Settle
  deriving Repr, DecidableEq

def initialState : BridgeState :=
  { isReady := false, pending := [], readyWaiters := 0, wasmUploaded := false, settles := [] }

/-- `pendingRef.current.get(id)`. -/
def pendingFind (st : BridgeState) (id : String) : Option PendingEntry :=
  (st.pending.find? (fun p => p.1 == id)).map Prod.snd

/-- `pendingRef.current.has(id)` (whether a pending entry exists). -/
def isPending (st : BridgeState) (id : String) : Bool :=
  (pendingFind st id).isSome

/-- `pendingRef.current.delete(id)`. -/
def erasePending (l : List (String × PendingEntry)) (id : String) :
    List (String × PendingEntry) :=
  l.filter (fun p => p.1 != id)

/-- The timeout rejection message built in `postRpc`:
`` `WebView RPC timed out after ${timeoutMs}ms (${message.method})` ``. -/
def timeoutMessage (timeoutMs : Nat) (method : String) : String :=
  "WebView RPC timed out after " ++ toString timeoutMs ++ "ms (" ++ method ++ ")"

/-- The body of the promise executor in `postRpc`: arm the timeout, store
the pending entry under `message.id`, post the message.  (`Map.set` on a
fresh key appends in insertion order; trace validity guarantees
freshness, matching the spec's id-uniqueness invariant.) -/
def postRpcSend (st : BridgeState) (id method : String) (timeoutMs now : Nat) : BridgeState :=
  { st with pending := st.pending ++ [(id, ⟨method, timeoutMs, now⟩)] }

/-- The `msg.type === 'rpcResponse'` branch of `onMessage`: look up the
pending entry; return (no-op) when absent; otherwise clear the timeout,
delete the entry and invoke `resolve(msg.result)` or `reject(err)` where
`err` is the error reconstructed from the serialized `name`/`message`
(modelled by `errMessage`). -/
def onRpcResponse (st : BridgeState) (id : String) (ok : Bool) (errMessage : String) :
    BridgeState :=
  match pendingFind st id with
  | none => st
  | some _ =>
      { st with
        pending := erasePending st.pending id,
        settles := st.settles ++ [if ok then Settle.resolved id else Settle.rejected id errMessage] }

/-- The `setTimeout` callback armed in `postRpc`: delete the entry and
reject with the timeout error.  The callback body is unconditional; the
runtime fact that a cleared timer never fires is encoded in `evOk` (the
`none` branch is unreachable on valid traces). -/
def timerFire (st : BridgeState) (id : String) : BridgeState :=
  match pendingFind st id with
  | none => st
  | some e =>
      { st with
        pending := erasePending st.pending id,
        settles := st.settles ++ [Settle.rejected id (timeoutMessage e.timeoutMs e.method)] }

/-- `rejectReadyWaiters`: reject every waiter with `new Error(reason)` and
empty the list. -/
def rejectReadyWaiters (st : BridgeState) (reason : String) : BridgeState :=
  { st with
    readyWaiters := 0,
    settles := st.settles ++ List.replicate st.readyWaiters (Settle.waiterRejected reason) }

/-- `resetPendingRequests`: for every pending entry clear its timeout and
invoke `reject(new Error(reason))`, then clear the map. -/
def resetPendingRequests (st : BridgeState) (reason : String) : BridgeState :=
  { st with
    pending := [],
    settles := st.settles ++ st.pending.map (fun p => Settle.rejected p.1 reason) }

/-- `resetReadyState`: `setIsReady(false)`, then reject the ready-waiters,
then reset the pending requests (source order). -/
def resetReadyState (st : BridgeState) (reason : String) : BridgeState :=
  resetPendingRequests (rejectReadyWaiters { st with isReady := false } reason) reason

/-- `handleWebViewReload`: reset the ready state and clear the wasm-upload
flags so the next use re-uploads. -/
def handleWebViewReload (st : BridgeState) (reason : String) : BridgeState :=
  { resetReadyState st reason with wasmUploaded := false }

/-- `onLoadStart`: a new page load detected; acts only when previously
ready. -/
def onLoadStart (st : BridgeState) : BridgeState :=
  if st.isReady then handleWebViewReload st "WebView reloaded" else st

/-- `resolveReady` (the `msg.type === 'ready'` branch of `onMessage`):
set the ready flag and resolve every waiter. -/
def resolveReady (st : BridgeState) : BridgeState :=
  { st with
    isReady := true,
    readyWaiters := 0,
    settles := st.settles ++ List.replicate st.readyWaiters Settle.waiterResolved }

/-- `awaitReady`: when already ready the caller proceeds at once
(`Promise.resolve()`, second component `true`); otherwise a waiter is
pushed and the caller stays suspended (second component `false`). -/
def awaitReady (st : BridgeState) : BridgeState × Bool :=
  if st.isReady then (st, true)
  else ({ st with readyWaiters := st.readyWaiters + 1 }, false)

/-- Atomic events of the single-threaded native event loop, as far as the
correlation table is concerned. -/
inductive Ev where
  | send (id method : String) (timeoutMs sentAt : Nat)
  | rpcResponse (id : String) (ok : Bool) (errMessage : String)
  | fire (id : String) (now : Nat)
  | ready
  | loadStart
  deriving Repr, DecidableEq

def stepEv (st : BridgeState) : Ev → BridgeState
  | .send id method d t => postRpcSend st id method d t
  | .rpcResponse id ok m => onRpcResponse st id ok m
  | .fire id _ => timerFire st id
  | .ready => resolveReady st
  | .loadStart => onLoadStart st

/-- Number of `resolve`/`reject` invocations recorded for a given RPC id. -/
def countFor (l : List Settle) (id : String) : Nat :=
  (l.filter (fun s => s.rpcId == some id)).length

def settleCount (st : BridgeState) (id : String) : Nat :=
  countFor st.settles id

/-- Whether an event can happen in a given state.  `send` demands a fresh
id (the spec's uniqueness invariant for `createRequestId`); `fire` demands
that the timer is still armed — i.e. the entry is present, because
`clearTimeout` is invoked exactly when the entry is deleted — and that at
least the configured delay has elapsed since the send (`setTimeout` never
fires early). -/
def evOk (st : BridgeState) : Ev → Bool
  | .send id _ _ _ => !isPending st id && settleCount st id == 0
  | .rpcResponse _ _ _ => true
  | .fire id now =>
      match pendingFind st id with
      | some e => decide (e.sentAt + e.timeoutMs ≤ now)
      | none => false
  | .ready => true
  | .loadStart => true

def validFrom (st : BridgeState) : List Ev → Bool
  | [] => true
  | e :: es => evOk st e && validFrom (stepEv st e) es

def runEvents (st : BridgeState) : List Ev → BridgeState
  | [] => st
  | e :: es => runEvents (stepEv st e) es

/-- The ids of RPCs sent over a trace. -/
def sentIds : List Ev → List String
  | [] => []
  | .send id _ _ _ :: es => id :: sentIds es
  | _ :: es => sentIds es

/-- Per-id correctness: an id is either still pending with no settle yet,
or no longer pending and settled exactly once. -/
def idStatus (st : BridgeState) (id : String) : Prop :=
  (isPending st id = true ∧ settleCount st id = 0) ∨
  (isPending st id = false ∧ settleCount st id = 1)

/-- The pending map never holds two entries for the same id. -/
def keysNodup (st : BridgeState) : Prop :=
  (st.pending.map Prod.fst).Nodup

/-! ### Callback-dispatch branch of `onMessage` (`msg.type === 'callback'`) -/

structure CallbackRequestMsg where
  id : String
  callbackId : String
  expectsResponse : Bool
  deriving Repr, DecidableEq

/-- A `CallbackResponse` posted back into the WebView (result payloads are
pass-through and not modelled; error `name`/`message` are). -/
structure CallbackResponseMsg where
  id : String
  ok : Bool
  errName : Option String
  errMessage : Option String
  deriving Repr, DecidableEq

/-- Outcome of running the registered native handler (the body of the
async IIFE in `onMessage`). -/
inductive HandlerOutcome where
  | success
  | thrown (name message : String)
  deriving Repr, DecidableEq

/-- The callback branch of `onMessage`: the list of `CallbackResponse`
messages posted back across the boundary.  An unknown `callbackId` is
answered immediately with `ok: false` before `expectsResponse` is ever
consulted; a known handler only answers when `expectsResponse` is true. -/
def onCallbackRequest (registered : List String) (m : CallbackRequestMsg)
    (outcome : HandlerOutcome) : List CallbackResponseMsg :=
  if registered.contains m.callbackId then
    match outcome with
    | .success =>
        if m.expectsResponse then [⟨m.id, true, none, none⟩] else []
    | .thrown n msg =>
        if m.expectsResponse then [⟨m.id, false, some n, some msg⟩] else []
  else
    [⟨m.id, false, some "Error", some ("Unknown callbackId: " ++ m.callbackId)⟩]

end WebViewBridge

namespace Provider

/-- What a call to `CerbosProvider.checkResources` does synchronously:
either return an immediately rejected promise, or register the request and
return a pending promise (`CerbosContext.tsx`). -/
inductive CallOutcome where
  | rejectedNow (message : String)
  | queuedPending (requestId : String)
  deriving Repr, DecidableEq

/-- The readiness guard at the top of `checkResources`:
`if (!isReady) return Promise.reject(new Error("Cerbos PDP not initialized"))`;
otherwise the request is added to the queue as a pending promise. -/
def checkResourcesCall (isReady : Bool) (requestId : String) : CallOutcome :=
  if !isReady then CallOutcome.rejectedNow "Cerbos PDP not initialized"
  else CallOutcome.queuedPending requestId

/-- State of the batching scheduler in `CerbosProvider`: the pending
request ids in arrival order (`requests`, a string-keyed object with
insertion-ordered keys), the keys of `batchedRequests`, the log of
forwarded batches (`stats.batchesSent` is its length), the
`isBatchingRef` guard, and the log of promise settlements
`(requestId, success?)`. -/
structure ProviderState where
  requests : List String
  batched : List String
  sentBatches : List (List String)
  isBatching : Bool
  settles : List (String × Bool)
  deriving Repr, DecidableEq

/-- `processBatch`: return early when a batch is being processed or no
requests are pending; otherwise select the first `maxBatchSize` entries of
the pending map (arrival order) — the map is not consulted for previously
forwarded ids — merge them into `batchedRequests`
(`{ ...prev, ...newBatch }` keeps existing keys in place and appends new
ones) and leave `requests` unchanged. -/
def processBatch (maxBatchSize : Nat) (st : ProviderState) : ProviderState :=
  if st.isBatching then st
  else if st.requests.isEmpty then st
  else
    let batch := st.requests.take maxBatchSize
    { st with
      isBatching := true,
      batched := st.batched ++ batch.filter (fun id => !st.batched.contains id),
      sentBatches := st.sentBatches ++ [batch] }

/-- The delayed `isBatchingRef.current = false` reset that ends a batch
window (the 100ms `setTimeout` inside `processBatch`). -/
def finishBatchWindow (st : ProviderState) : ProviderState :=
  { st with isBatching := false }

/-- `cleanupRequest`: remove the request from both the pending map and
`batchedRequests` and clear its timeout. -/
def cleanupRequest (st : ProviderState) (id : String) : ProviderState :=
  { st with
    requests := st.requests.filter (fun r => r != id),
    batched := st.batched.filter (fun r => r != id) }

/-- `handleResponse`: when the id is still pending, resolve its promise
and clean it up; otherwise a warning is logged and nothing changes. -/
def handleResponse (st : ProviderState) (id : String) : ProviderState :=
  if st.requests.contains id then
    cleanupRequest { st with settles := st.settles ++ [(id, true)] } id
  else st

/-- The per-request timeout armed in `checkResources`: when the id is
still pending, reject its promise and clean it up. -/
def requestTimeoutFire (st : ProviderState) (id : String) : ProviderState :=
  if st.requests.contains id then
    cleanupRequest { st with settles := st.settles ++ [(id, false)] } id
  else st

def respondAll (st : ProviderState) (ids : List String) : ProviderState :=
  ids.foldl handleResponse st

/-- 25 request ids in arrival order. -/
def ids25 : List String :=
  (List.range 25).map (fun i => "r" ++ toString (i + 1))

def st25 : ProviderState :=
  { requests := ids25, batched := [], sentBatches := [], isBatching := false, settles := [] }

/-- Two batch firings with no responses arriving in between. -/
def twoBatchesNoResponses : ProviderState :=
  processBatch 10 (finishBatchWindow (processBatch 10 st25))

/-- Three batch firings where every forwarded request receives its
response before the next firing. -/
def threeBatchesWithResponses : ProviderState :=
  let s1 := processBatch 10 st25
  let s2 := processBatch 10 (respondAll (finishBatchWindow s1) (ids25.take 10))
  let s3 := processBatch 10 (respondAll (finishBatchWindow s2) ((ids25.drop 10).take 10))
  respondAll (finishBatchWindow s3) (ids25.drop 20)

end Provider

namespace SandboxBridge

/-- Just enough of the JavaScript value universe to state the `wasmUpload`
parameter validation (`cerbos-webview-bridge.ts`): strings, numbers that
are integers, finite non-integer numbers, `NaN`, booleans, `undefined`
and `null`. -/
inductive JsVal where
  | vstr (s : String)
  | vint (n : Int)
  | vnum
  | vnan
  | vbool (b : Bool)
  | vundef
  | vnull
  deriving Repr, DecidableEq

/-- JavaScript falsiness (`!x`). -/
def JsVal.falsy : JsVal → Bool
  | .vstr s => s == ""
  | .vint n => n == 0
  | .vnum => false
  | .vnan => true
  | .vbool b => !b
  | .vundef => true
  | .vnull => true

/-- An upload session: `{ total, chunks: new Array(total), received: 0 }`.
`chunks` is a slot array where an unfilled slot (`undefined`) is `none`. -/
structure UploadSession where
  total : Int
  chunks : List (Option String)
  received : Int
  deriving Repr, DecidableEq

/-- The bridge-global mutable state touched by `wasmUpload`:
`bundledWasmBase64` and the `wasmUploads` map (insertion-ordered,
arbitrary JS values as keys like a JS `Map`). -/
structure BridgeGlobals where
  bundledWasmBase64 : Option String
  wasmUploads : List (JsVal × UploadSession)
  deriving Repr, DecidableEq

def emptyGlobals : BridgeGlobals :=
  { bundledWasmBase64 := none, wasmUploads := [] }

/-- `wasmUploads.get(uploadId)`. -/
def lookupUpload (g : BridgeGlobals) (k : JsVal) : Option UploadSession :=
  (g.wasmUploads.find? (fun p => p.1 == k)).map Prod.snd

/-- `Map.set`: replace in place when the key exists, else append. -/
def mapSet (l : List (JsVal × UploadSession)) (k : JsVal) (s : UploadSession) :
    List (JsVal × UploadSession) :=
  if l.any (fun p => p.1 == k) then l.map (fun p => if p.1 == k then (k, s) else p)
  else l ++ [(k, s)]

/-- `Map.delete`. -/
def mapDelete (l : List (JsVal × UploadSession)) (k : JsVal) :
    List (JsVal × UploadSession) :=
  l.filter (fun p => p.1 != k)

/-- `upload.chunks.join('')`: an unfilled slot contributes the empty
string. -/
def joinChunks (chunks : List (Option String)) : String :=
  String.join (chunks.map (fun c => c.getD ""))

inductive UploadResult where
  | done
  | progress (received total : Int)
  deriving Repr, DecidableEq

structure WasmUploadParams where
  uploadId : JsVal
  index : JsVal
  total : JsVal
  chunk : JsVal
  deriving Repr, DecidableEq

/-- `wasmUpload(params)`.  The function is modelled as state-passing:
the returned globals are the state after the call, also on the throwing
paths (every `throw` in the source happens before any mutation, which
this encoding makes visible).  `chunks.set` here is in-bounds on every
reachable call — see the safety theorem — so `List.set`'s out-of-range
no-op never differs from the JS write. -/
def wasmUpload (g : BridgeGlobals) (p : WasmUploadParams) :
    BridgeGlobals × Except String UploadResult :=
  match p.index, p.total, p.chunk with
  | JsVal.vint index, JsVal.vint total, JsVal.vstr chunk =>
      if p.uploadId.falsy || total ≤ 0 then
        (g, Except.error "Invalid wasmUpload params")
      else if index < 0 || total ≤ index then
        (g, Except.error "Invalid upload index")
      else
        let found := lookupUpload g p.uploadId
        let upload :=
          match found with
          | some u => u
          | none => { total := total, chunks := List.replicate total.toNat none, received := 0 }
        let uploads1 :=
          match found with
          | some _ => g.wasmUploads
          | none => mapSet g.wasmUploads p.uploadId upload
        if upload.total ≠ total then
          ({ g with wasmUploads := uploads1 }, Except.error "Mismatched upload total")
        else
          let idx := index.toNat
          let received1 :=
            if upload.chunks.getD idx none = none then upload.received + 1 else upload.received
          let chunks1 := upload.chunks.set idx (some chunk)
          if upload.total ≤ received1 then
            ({ bundledWasmBase64 := some (joinChunks chunks1),
               wasmUploads := mapDelete uploads1 p.uploadId },
             Except.ok UploadResult.done)
          else
            ({ g with
               wasmUploads := mapSet uploads1 p.uploadId
                 { total := upload.total, chunks := chunks1, received := received1 } },
             Except.ok (UploadResult.progress received1 upload.total))
  | _, _, _ => (g, Except.error "Invalid wasmUpload params")

/-- The full parameter validation of `wasmUpload` as one predicate:
truthy `uploadId`, integer `index` and `total`, positive `total`, string
`chunk`, and `index` within `[0, total)`. -/
def paramsValid (p : WasmUploadParams) : Bool :=
  match p.index, p.total, p.chunk with
  | JsVal.vint i, JsVal.vint t, JsVal.vstr _ =>
      !p.uploadId.falsy && decide (0 < t) && decide (0 ≤ i) && decide (i < t)
  | _, _, _ => false

/-- The session a successful call writes into: the existing one, or the
freshly allocated one on the first chunk. -/
def targetSession (g : BridgeGlobals) (p : WasmUploadParams) : UploadSession :=
  match lookupUpload g p.uploadId, p.total with
  | some u, _ => u
  | none, JsVal.vint t => { total := t, chunks := List.replicate t.toNat none, received := 0 }
  | none, _ => { total := 0, chunks := [], received := 0 }

/-- Well-formedness of a session: positive declared total and a slot
array of exactly that length (as allocated by `new Array(total)`). -/
def sessionWF (s : UploadSession) : Prop :=
  0 < s.total ∧ s.chunks.length = s.total.toNat

def globalsWF (g : BridgeGlobals) : Prop :=
  ∀ q ∈ g.wasmUploads, sessionWF q.2

/-- One chunk delivery of the session described by payload function `f`. -/
def uploadCall (u : String) (t : Nat) (f : Nat → String) (g : BridgeGlobals) (i : Nat) :
    Option BridgeGlobals :=
  match wasmUpload g ⟨JsVal.vstr u, JsVal.vint i, JsVal.vint t, JsVal.vstr (f i)⟩ with
  | (g1, Except.ok _) => some g1
  | (_, Except.error _) => none

/-- Deliver the chunks of one upload in the given arrival order,
requiring every call to succeed. -/
def runUpload (u : String) (t : Nat) (f : Nat → String) :
    BridgeGlobals → List Nat → Option BridgeGlobals
  | g, [] => some g
  | g, i :: rest =>
      match uploadCall u t f g i with
      | some g1 => runUpload u t f g1 rest
      | none => none

/-- The session state after the chunks with indexes `done` (in any
order) have been stored: slot `j` filled with `f j` exactly for
`j ∈ done`. -/
def sessionFor (done : List Nat) (t : Nat) (f : Nat → String) : UploadSession :=
  { total := (t : Int),
    chunks := (List.range t).map (fun j => if j ∈ done then some (f j) else none),
    received := (done.length : Int) }

/-- Concrete payloads for the spec's reassembly example. -/
def demoChunk : Nat → String :=
  fun i => ["A", "B", "C"].getD i ""

end SandboxBridge

namespace WebViewBridge

theorem find?_erase_self (l : List (String × PendingEntry)) (id : String) :
    (erasePending l id).find? (fun p => p.1 == id) = none := by
  rw [List.find?_eq_none]
  intro x hx
  have hmem := List.mem_filter.mp hx
  have : x.1 ≠ id := by simpa using hmem.2
  simpa using this

theorem find?_erase_ne (l : List (String × PendingEntry)) (id id2 : String) (h : id2 ≠ id) :
    (erasePending l id).find? (fun p => p.1 == id2) = l.find? (fun p => p.1 == id2) := by
  induction l with
  | nil => rfl
  | cons a t ih =>
    simp only [erasePending, List.filter_cons] at *
    by_cases ha : a.1 = id
    · have h1 : (a.1 != id) = false := by simp [ha]
      have h2 : ¬(a.1 == id2) = true := by
        simp only [beq_iff_eq, ha]
        exact Ne.symm h
      rw [h1]
      simp only [Bool.false_eq_true, if_false]
      rw [List.find?_cons_of_neg t h2]
      exact ih
    · have h1 : (a.1 != id) = true := by simp [ha]
      rw [h1]
      simp only [if_true]
      by_cases hb : (a.1 == id2) = true
      · rw [List.find?_cons_of_pos (p := fun (q : String × PendingEntry) => q.1 == id2) _ hb,
          List.find?_cons_of_pos (p := fun (q : String × PendingEntry) => q.1 == id2) _ hb]
      · rw [List.find?_cons_of_neg (p := fun (q : String × PendingEntry) => q.1 == id2) _ hb,
          List.find?_cons_of_neg (p := fun (q : String × PendingEntry) => q.1 == id2) _ hb]
        exact ih

theorem pendingFind_erase_self (st : BridgeState) (id : String)
    (l : List (String × PendingEntry)) :
    pendingFind { st with pending := erasePending l id } id = none := by
  simp [pendingFind, find?_erase_self]

theorem pendingFind_erase_ne (st : BridgeState) (id id2 : String) (h : id2 ≠ id) :
    pendingFind { st with pending := erasePending st.pending id } id2 = pendingFind st id2 := by
  simp only [pendingFind, find?_erase_ne st.pending id id2 h]

theorem countFor_append (l m : List Settle) (id : String) :
    countFor (l ++ m) id = countFor l id + countFor m id := by
  simp [countFor, List.filter_append]

theorem countFor_replicate_waiterResolved (n : Nat) (id : String) :
    countFor (List.replicate n Settle.waiterResolved) id = 0 := by
  induction n with
  | zero => rfl
  | succ k ih =>
    simp only [countFor, List.replicate_succ, List.filter_cons, Settle.rpcId] at *
    exact ih

theorem countFor_replicate_waiterRejected (n : Nat) (msg id : String) :
    countFor (List.replicate n (Settle.waiterRejected msg)) id = 0 := by
  induction n with
  | zero => rfl
  | succ k ih =>
    simp only [countFor, List.replicate_succ, List.filter_cons, Settle.rpcId] at *
    exact ih

theorem countFor_rejections_eq_count (l : List (String × PendingEntry)) (reason id : String) :
    countFor (l.map (fun p => Settle.rejected p.1 reason)) id = (l.map Prod.fst).count id := by
  induction l with
  | nil => rfl
  | cons a t ih =>
    by_cases ha : a.1 = id
    · simp [countFor, List.filter_cons, Settle.rpcId, ha, List.count_cons] at *
      omega
    · have : a.1 ≠ id := ha
      simp [countFor, List.filter_cons, Settle.rpcId, ha, List.count_cons, this] at *
      exact ih

/-- A found pending entry means the id occurs among the map keys. -/
theorem mem_keys_of_pendingFind (st : BridgeState) (id : String) (e : PendingEntry)
    (h : pendingFind st id = some e) : id ∈ st.pending.map Prod.fst := by
  unfold pendingFind at h
  cases hf : st.pending.find? (fun p => p.1 == id) with
  | none => rw [hf] at h; simp at h
  | some x =>
    have hx := List.find?_some hf
    have hxm := List.mem_of_find?_eq_some hf
    have : x.1 = id := by simpa using hx
    exact this ▸ List.mem_map_of_mem Prod.fst hxm

theorem not_mem_keys_of_pendingFind_none (st : BridgeState) (id : String)
    (h : pendingFind st id = none) : id ∉ st.pending.map Prod.fst := by
  intro hmem
  unfold pendingFind at h
  cases hf : st.pending.find? (fun p => p.1 == id) with
  | some x => rw [hf] at h; simp at h
  | none =>
    rw [List.find?_eq_none] at hf
    rcases List.mem_map.mp hmem with ⟨p, hp, hkey⟩
    exact hf p hp (by simpa using hkey)

/-- Shared helper: the message-receive path is a no-op when the response
id has no pending entry (already resolved, timed out, or never sent). -/
theorem onRpcResponse_of_not_pending (st : BridgeState) (id : String) (ok : Bool) (m : String)
    (h : isPending st id = false) : onRpcResponse st id ok m = st := by
  unfold onRpcResponse
  unfold isPending at h
  cases hf : pendingFind st id with
  | none => rfl
  | some e => rw [hf] at h; simp at h

/-- C3 — Delivering an `RpcResponse` whose id is not currently pending
(including a duplicate for an already-settled id) is a no-op on the
message-receive path: no callback runs, nothing is thrown, and the
pending map is unchanged. -/
theorem unknown_id_response_is_noop (st : BridgeState) (id : String) (ok : Bool) (m : String)
    (h : isPending st id = false) :
    onRpcResponse st id ok m = st :=
  onRpcResponse_of_not_pending st id ok m h

theorem unknown_id_response_is_noop_witness :
    isPending initialState "x1" = false ∧
    onRpcResponse initialState "x1" true "" = initialState :=
  ⟨by decide, unknown_id_response_is_noop initialState "x1" true "" (by decide)⟩

/-- C7 — On a reload detected while previously ready (`onLoadStart` with
`isReady`), with 5 pending RPCs and 2 ready-waiters outstanding, all 7
promises are rejected with the `"WebView reloaded"` reason, the pending
map and the waiter list become empty, and the readiness flag returns to
`false` (the wasm-upload flag is also reset). -/
theorem reload_rejects_all_outstanding (st : BridgeState)
    (hready : st.isReady = true) (hp : st.pending.length = 5) (hw : st.readyWaiters = 2) :
    (onLoadStart st).isReady = false ∧
    (onLoadStart st).pending = [] ∧
    (onLoadStart st).readyWaiters = 0 ∧
    (onLoadStart st).wasmUploaded = false ∧
    (onLoadStart st).settles =
      st.settles ++ List.replicate 2 (Settle.waiterRejected "WebView reloaded")
        ++ st.pending.map (fun p => Settle.rejected p.1 "WebView reloaded") ∧
    (onLoadStart st).settles.length = st.settles.length + 7 := by
  simp [onLoadStart, hready, handleWebViewReload, resetReadyState,
    resetPendingRequests, rejectReadyWaiters, hw, hp]

def demoPending : List (String × PendingEntry) :=
  [("p1", ⟨"init", 30000, 0⟩), ("p2", ⟨"checkResource", 30000, 1⟩),
   ("p3", ⟨"checkResources", 30000, 2⟩), ("p4", ⟨"planResources", 30000, 3⟩),
   ("p5", ⟨"wasmUpload", 120000, 4⟩)]

def demoReadyState : BridgeState :=
  { isReady := true, pending := demoPending, readyWaiters := 2, wasmUploaded := true,
    settles := [] }

theorem reload_rejects_all_outstanding_witness :
    demoReadyState.isReady = true ∧ demoReadyState.pending.length = 5 ∧
    demoReadyState.readyWaiters = 2 ∧
    ((onLoadStart demoReadyState).isReady = false ∧
     (onLoadStart demoReadyState).pending = [] ∧
     (onLoadStart demoReadyState).readyWaiters = 0 ∧
     (onLoadStart demoReadyState).wasmUploaded = false ∧
     (onLoadStart demoReadyState).settles =
       demoReadyState.settles ++ List.replicate 2 (Settle.waiterRejected "WebView reloaded")
         ++ demoReadyState.pending.map (fun p => Settle.rejected p.1 "WebView reloaded") ∧
     (onLoadStart demoReadyState).settles.length = demoReadyState.settles.length + 7) :=
  ⟨by decide, by decide, by decide,
   reload_rejects_all_outstanding demoReadyState (by decide) (by decide) (by decide)⟩

/-- C8 — A `CallbackRequest` with an unregistered `callbackId` is always
answered with a `CallbackResponse` with `ok: false` citing the unknown
callback id, before `expectsResponse` is consulted — so also when the
request declared `expectsResponse: false`. -/
theorem unknown_callback_id_always_answered (registered : List String)
    (m : CallbackRequestMsg) (outcome : HandlerOutcome)
    (h : registered.contains m.callbackId = false) :
    onCallbackRequest registered m outcome =
      [⟨m.id, false, some "Error", some ("Unknown callbackId: " ++ m.callbackId)⟩] := by
  unfold onCallbackRequest
  rw [h]
  simp

theorem unknown_callback_id_always_answered_witness :
    ["cbA"].contains "cbB" = false ∧
    onCallbackRequest ["cbA"] ⟨"m1", "cbB", false⟩ HandlerOutcome.success =
      [⟨"m1", false, some "Error", some ("Unknown callbackId: " ++ "cbB")⟩] :=
  ⟨by decide,
   unknown_callback_id_always_answered ["cbA"] ⟨"m1", "cbB", false⟩ HandlerOutcome.success
     (by decide)⟩

theorem find?_append_single (l : List (String × PendingEntry)) (x : String × PendingEntry)
    (id : String) :
    (l ++ [x]).find? (fun p => p.1 == id) =
      (l.find? (fun p => p.1 == id)).or (if x.1 == id then some x else none) := by
  rw [List.find?_append]
  congr 1
  by_cases hb : (x.1 == id) = true
  · rw [List.find?_cons_of_pos (p := fun (q : String × PendingEntry) => q.1 == id) _ hb,
      if_pos hb]
  · rw [List.find?_cons_of_neg (p := fun (q : String × PendingEntry) => q.1 == id) _ hb,
      if_neg hb]
    rfl

theorem pendingFind_postRpcSend (st : BridgeState) (id0 m : String) (d t : Nat) (id : String) :
    pendingFind (postRpcSend st id0 m d t) id =
      (pendingFind st id).or (if id0 == id then some ⟨m, d, t⟩ else none) := by
  unfold pendingFind postRpcSend
  rw [find?_append_single]
  cases st.pending.find? (fun p => p.1 == id) with
  | some x => rfl
  | none =>
    by_cases hb : (id0 == id) = true <;> simp [hb]

theorem countFor_settleOne (ok : Bool) (m id0 id : String) :
    countFor [if ok then Settle.resolved id0 else Settle.rejected id0 m] id =
      if id0 = id then 1 else 0 := by
  by_cases h : id0 = id <;> cases ok <;> simp [countFor, List.filter_cons, Settle.rpcId, h]

theorem countFor_rejectedOne (m id0 id : String) :
    countFor [Settle.rejected id0 m] id = if id0 = id then 1 else 0 := by
  by_cases h : id0 = id <;> simp [countFor, List.filter_cons, Settle.rpcId, h]

theorem keysNodup_step (st : BridgeState) (e : Ev) (hok : evOk st e = true)
    (h : keysNodup st) : keysNodup (stepEv st e) := by
  cases e with
  | send id0 m d t =>
    have hfresh : isPending st id0 = false := by
      simp [evOk] at hok
      simpa using hok.1
    have hnm : id0 ∉ st.pending.map Prod.fst := by
      apply not_mem_keys_of_pendingFind_none
      unfold isPending at hfresh
      cases hp : pendingFind st id0 with
      | none => rfl
      | some x => rw [hp] at hfresh; simp at hfresh
    have hkeys : (st.pending.map Prod.fst ++ [id0]).Nodup := by
      rw [List.nodup_append]
      refine ⟨h, List.nodup_singleton id0, ?_⟩
      intro a ha hb
      rw [List.mem_singleton] at hb
      exact hnm (hb ▸ ha)
    simpa [stepEv, postRpcSend, keysNodup, List.map_append] using hkeys
  | rpcResponse id0 ok m =>
    simp only [stepEv, onRpcResponse]
    cases pendingFind st id0 with
    | none => exact h
    | some x =>
      exact ((List.filter_sublist st.pending).map Prod.fst).nodup h
  | fire id0 now =>
    simp only [stepEv, timerFire]
    cases pendingFind st id0 with
    | none => exact h
    | some x =>
      exact ((List.filter_sublist st.pending).map Prod.fst).nodup h
  | ready =>
    simpa [stepEv, resolveReady, keysNodup] using h
  | loadStart =>
    simp only [stepEv, onLoadStart]
    by_cases hr : st.isReady
    · simp [hr, handleWebViewReload, resetReadyState, resetPendingRequests,
        rejectReadyWaiters, keysNodup]
    · rw [if_neg hr]
      exact h

theorem settleCount_resolveReady (st : BridgeState) (id : String) :
    settleCount (resolveReady st) id = settleCount st id := by
  simp [settleCount, resolveReady, countFor_append, countFor_replicate_waiterResolved]

theorem pendingFind_resolveReady (st : BridgeState) (id : String) :
    pendingFind (resolveReady st) id = pendingFind st id := rfl

/-- Consuming a pending entry (response arrival or timer fire): the entry
is deleted and exactly one settle for its id is appended. -/
theorem idStatus_consume (st : BridgeState) (id0 id : String) (entry : PendingEntry)
    (s : Settle) (hf : pendingFind st id0 = some entry) (hs : s.rpcId = some id0)
    (h : idStatus st id) :
    idStatus
      { st with pending := erasePending st.pending id0, settles := st.settles ++ [s] } id := by
  by_cases hcase : id = id0
  · subst hcase
    rcases h with ⟨h1, h2⟩ | ⟨h1, h2⟩
    · right
      constructor
      · simp [isPending, pendingFind, find?_erase_self]
      · have h1c : countFor [s] id = 1 := by simp [countFor, List.filter_cons, hs]
        unfold settleCount at h2 ⊢
        simp only []
        rw [countFor_append, h2, h1c]
    · exfalso
      unfold isPending at h1
      rw [hf] at h1
      simp at h1
  · have hne : id0 ≠ id := fun hx => hcase hx.symm
    have hpf :
        pendingFind
          { st with pending := erasePending st.pending id0, settles := st.settles ++ [s] } id
          = pendingFind st id := by
      simp [pendingFind, find?_erase_ne st.pending id0 id hcase]
    have hcf : countFor [s] id = 0 := by
      simp [countFor, List.filter_cons, hs, hne]
    have hc :
        settleCount
          { st with pending := erasePending st.pending id0, settles := st.settles ++ [s] } id
          = settleCount st id := by
      unfold settleCount
      simp only []
      rw [countFor_append, hcf]
      omega
    have hip :
        isPending
          { st with pending := erasePending st.pending id0, settles := st.settles ++ [s] } id
          = isPending st id := by
      unfold isPending
      rw [hpf]
    rcases h with ⟨h1, h2⟩ | ⟨h1, h2⟩
    · exact Or.inl ⟨by rw [hip]; exact h1, by rw [hc]; exact h2⟩
    · exact Or.inr ⟨by rw [hip]; exact h1, by rw [hc]; exact h2⟩

/-- Reload cleanup settles each pending id exactly once (waiter
rejections carry no RPC id). -/
theorem idStatus_reload (st : BridgeState) (id reason : String)
    (hnd : keysNodup st) (h : idStatus st id) :
    idStatus (handleWebViewReload st reason) id := by
  have hpend : pendingFind (handleWebViewReload st reason) id = none := by
    simp [handleWebViewReload, resetReadyState, resetPendingRequests, rejectReadyWaiters,
      pendingFind]
  have hcnt : settleCount (handleWebViewReload st reason) id =
      settleCount st id + (st.pending.map Prod.fst).count id := by
    simp [handleWebViewReload, resetReadyState, resetPendingRequests, rejectReadyWaiters,
      settleCount, countFor_append, countFor_replicate_waiterRejected,
      countFor_rejections_eq_count]
  rcases h with ⟨h1, h2⟩ | ⟨h1, h2⟩
  · right
    refine ⟨by simp [isPending, hpend], ?_⟩
    unfold isPending at h1
    cases hp : pendingFind st id with
    | none => rw [hp] at h1; simp at h1
    | some e =>
      have hmem := mem_keys_of_pendingFind st id e hp
      rw [hcnt, h2, List.count_eq_one_of_mem hnd hmem]
  · right
    refine ⟨by simp [isPending, hpend], ?_⟩
    have hnm : id ∉ st.pending.map Prod.fst := by
      apply not_mem_keys_of_pendingFind_none
      unfold isPending at h1
      cases hp : pendingFind st id with
      | none => rfl
      | some e => rw [hp] at h1; simp at h1
    rw [hcnt, h2, List.count_eq_zero.mpr hnm]

theorem idStatus_after_send (st : BridgeState) (id0 m : String) (d t : Nat)
    (hok : evOk st (Ev.send id0 m d t) = true) :
    idStatus (postRpcSend st id0 m d t) id0 := by
  simp only [evOk, Bool.and_eq_true] at hok
  have hfresh : isPending st id0 = false := by simpa using hok.1
  have hzero : settleCount st id0 = 0 := by simpa using hok.2
  have hpf : pendingFind st id0 = none := by
    unfold isPending at hfresh
    cases hp : pendingFind st id0 with
    | none => rfl
    | some e => rw [hp] at hfresh; simp at hfresh
  left
  constructor
  · simp [isPending, pendingFind_postRpcSend, hpf]
  · simpa [settleCount, postRpcSend] using hzero

theorem idStatus_step (st : BridgeState) (e : Ev) (id : String)
    (hok : evOk st e = true) (hnd : keysNodup st) (h : idStatus st id) :
    idStatus (stepEv st e) id := by
  cases e with
  | send id0 m d t =>
    simp only [stepEv]
    simp only [evOk, Bool.and_eq_true] at hok
    have hfresh : isPending st id0 = false := by simpa using hok.1
    have hzero : settleCount st id0 = 0 := by simpa using hok.2
    by_cases hcase : id = id0
    · subst hcase
      rcases h with ⟨h1, _⟩ | ⟨_, h2⟩
      · rw [hfresh] at h1; simp at h1
      · rw [hzero] at h2; simp at h2
    · have hne : (id0 == id) = false := by
        rw [beq_eq_false_iff_ne]
        exact fun hx => hcase hx.symm
      have hpf : pendingFind (postRpcSend st id0 m d t) id = pendingFind st id := by
        rw [pendingFind_postRpcSend, hne]
        simp
      have hip : isPending (postRpcSend st id0 m d t) id = isPending st id := by
        unfold isPending
        rw [hpf]
      have hcnt : settleCount (postRpcSend st id0 m d t) id = settleCount st id := rfl
      rcases h with ⟨h1, h2⟩ | ⟨h1, h2⟩
      · exact Or.inl ⟨by rw [hip]; exact h1, by rw [hcnt]; exact h2⟩
      · exact Or.inr ⟨by rw [hip]; exact h1, by rw [hcnt]; exact h2⟩
  | rpcResponse id0 ok m =>
    simp only [stepEv, onRpcResponse]
    cases hp : pendingFind st id0 with
    | none => exact h
    | some entry =>
      exact idStatus_consume st id0 id entry _ hp
        (by cases ok <;> simp [Settle.rpcId]) h
  | fire id0 now =>
    simp only [stepEv, timerFire]
    cases hp : pendingFind st id0 with
    | none => exact h
    | some entry =>
      exact idStatus_consume st id0 id entry _ hp (by simp [Settle.rpcId]) h
  | ready =>
    simp only [stepEv]
    have hip : isPending (resolveReady st) id = isPending st id := by
      unfold isPending
      rw [pendingFind_resolveReady]
    have hc := settleCount_resolveReady st id
    rcases h with ⟨h1, h2⟩ | ⟨h1, h2⟩
    · exact Or.inl ⟨by rw [hip]; exact h1, by rw [hc]; exact h2⟩
    · exact Or.inr ⟨by rw [hip]; exact h1, by rw [hc]; exact h2⟩
  | loadStart =>
    simp only [stepEv, onLoadStart]
    by_cases hr : st.isReady
    · rw [if_pos hr]
      exact idStatus_reload st id "WebView reloaded" hnd h
    · rw [if_neg hr]
      exact h

theorem idStatus_run (tr : List Ev) : ∀ (st : BridgeState), validFrom st tr = true →
    keysNodup st → ∀ id : String, (idStatus st id ∨ id ∈ sentIds tr) →
    idStatus (runEvents st tr) id := by
  induction tr with
  | nil =>
    intro st _ _ id h
    rcases h with h | h
    · exact h
    · simp [sentIds] at h
  | cons e es ih =>
    intro st hv hnd id h
    simp only [validFrom, Bool.and_eq_true] at hv
    have hnd2 := keysNodup_step st e hv.1 hnd
    apply ih (stepEv st e) hv.2 hnd2 id
    rcases h with h | h
    · exact Or.inl (idStatus_step st e id hv.1 hnd h)
    · cases e with
      | send id0 m d t =>
        rcases List.mem_cons.mp (by simpa [sentIds] using h) with heq | h2
        · subst heq
          exact Or.inl (idStatus_after_send st _ m d t hv.1)
        · exact Or.inr h2
      | rpcResponse id0 ok m => exact Or.inr (by simpa [sentIds] using h)
      | fire id0 now => exact Or.inr (by simpa [sentIds] using h)
      | ready => exact Or.inr (by simpa [sentIds] using h)
      | loadStart => exact Or.inr (by simpa [sentIds] using h)

/-- C1 — For every RPC id sent via `postRpc` over any valid event trace
(any interleaving of concurrent sends, out-of-order responses, timer
fires and reloads), the promise registered under that id is settled
(resolved or rejected) exactly once: while its entry is pending it has
zero settles, and as soon as its entry is gone it has exactly one —
never more. -/
theorem rpc_settled_exactly_once (tr : List Ev)
    (hv : validFrom initialState tr = true) (id : String) (hid : id ∈ sentIds tr) :
    settleCount (runEvents initialState tr) id
      + (if isPending (runEvents initialState tr) id then 1 else 0) = 1 := by
  have h := idStatus_run tr initialState hv (by simp [keysNodup, initialState]) id (Or.inr hid)
  rcases h with ⟨h1, h2⟩ | ⟨h1, h2⟩ <;> simp [h1, h2]

def demoTrace : List Ev :=
  [Ev.ready, Ev.send "a" "checkResources" 30000 0, Ev.send "b" "planResources" 30000 1,
   Ev.rpcResponse "b" false "upstream failure", Ev.rpcResponse "a" true "",
   Ev.rpcResponse "a" true ""]

theorem rpc_settled_exactly_once_witness :
    validFrom initialState demoTrace = true ∧ "a" ∈ sentIds demoTrace ∧
    settleCount (runEvents initialState demoTrace) "a"
      + (if isPending (runEvents initialState demoTrace) "a" then 1 else 0) = 1 :=
  ⟨by decide, by decide, rpc_settled_exactly_once demoTrace (by decide) "a" (by decide)⟩

theorem runEvents_append (tr1 tr2 : List Ev) : ∀ st : BridgeState,
    runEvents st (tr1 ++ tr2) = runEvents (runEvents st tr1) tr2 := by
  induction tr1 with
  | nil => intro st; rfl
  | cons e es ih => intro st; simp [runEvents, ih]

theorem validFrom_append (tr1 tr2 : List Ev) : ∀ st : BridgeState,
    validFrom st (tr1 ++ tr2) = (validFrom st tr1 && validFrom (runEvents st tr1) tr2) := by
  induction tr1 with
  | nil => intro st; simp [validFrom, runEvents]
  | cons e es ih => intro st; simp [validFrom, runEvents, ih, Bool.and_assoc]

theorem onRpcResponse_pendingFind (st : BridgeState) (id0 : String) (ok : Bool) (m : String)
    (id : String) :
    pendingFind (onRpcResponse st id0 ok m) id =
      if id = id0 then
        (if (pendingFind st id0).isSome then none else pendingFind st id)
      else pendingFind st id := by
  unfold onRpcResponse
  cases hp : pendingFind st id0 with
  | none =>
    by_cases hcase : id = id0
    · subst hcase
      simp [hp]
    · simp [hcase]
  | some x =>
    by_cases hcase : id = id0
    · subst hcase
      simp only [hp, Option.isSome_some, if_pos rfl, if_true]
      simp [pendingFind, find?_erase_self]
    · simp only [if_neg hcase]
      simp [pendingFind, find?_erase_ne st.pending id0 id hcase]

theorem timerFire_pendingFind (st : BridgeState) (id0 id : String) :
    pendingFind (timerFire st id0) id =
      if id = id0 then
        (if (pendingFind st id0).isSome then none else pendingFind st id)
      else pendingFind st id := by
  unfold timerFire
  cases hp : pendingFind st id0 with
  | none =>
    by_cases hcase : id = id0
    · subst hcase
      simp [hp]
    · simp [hcase]
  | some x =>
    by_cases hcase : id = id0
    · subst hcase
      simp only [hp, Option.isSome_some, if_pos rfl, if_true]
      simp [pendingFind, find?_erase_self]
    · simp only [if_neg hcase]
      simp [pendingFind, find?_erase_ne st.pending id0 id hcase]

theorem pendingFind_step_source (st : BridgeState) (e : Ev) (id : String) (en : PendingEntry)
    (h : pendingFind (stepEv st e) id = some en) :
    e = Ev.send id en.method en.timeoutMs en.sentAt ∨ pendingFind st id = some en := by
  cases e with
  | send id0 m d t =>
    rw [show stepEv st (Ev.send id0 m d t) = postRpcSend st id0 m d t from rfl,
      pendingFind_postRpcSend] at h
    cases hq : pendingFind st id with
    | some x =>
      rw [hq] at h
      exact Or.inr (by simpa using h)
    | none =>
      rw [hq] at h
      by_cases hb : (id0 == id) = true
      · rw [if_pos hb] at h
        simp only [Option.none_or, Option.some.injEq] at h
        have hid : id0 = id := by simpa using hb
        subst hid
        left
        rw [← h]
      · rw [if_neg hb] at h
        simp at h
  | rpcResponse id0 ok m =>
    rw [show stepEv st (Ev.rpcResponse id0 ok m) = onRpcResponse st id0 ok m from rfl,
      onRpcResponse_pendingFind] at h
    by_cases hcase : id = id0
    · rw [if_pos hcase] at h
      by_cases hs : (pendingFind st id0).isSome
      · rw [if_pos hs] at h
        simp at h
      · rw [if_neg hs] at h
        exact Or.inr h
    · rw [if_neg hcase] at h
      exact Or.inr h
  | fire id0 now =>
    rw [show stepEv st (Ev.fire id0 now) = timerFire st id0 from rfl,
      timerFire_pendingFind] at h
    by_cases hcase : id = id0
    · rw [if_pos hcase] at h
      by_cases hs : (pendingFind st id0).isSome
      · rw [if_pos hs] at h
        simp at h
      · rw [if_neg hs] at h
        exact Or.inr h
    · rw [if_neg hcase] at h
      exact Or.inr h
  | ready => exact Or.inr h
  | loadStart =>
    rw [show stepEv st Ev.loadStart = onLoadStart st from rfl] at h
    unfold onLoadStart at h
    by_cases hr : st.isReady
    · rw [if_pos hr] at h
      simp [handleWebViewReload, resetReadyState, resetPendingRequests,
        rejectReadyWaiters, pendingFind] at h
    · rw [if_neg hr] at h
      exact Or.inr h

theorem pending_entry_has_send (tr : List Ev) : ∀ (st : BridgeState) (id : String)
    (en : PendingEntry), pendingFind (runEvents st tr) id = some en →
    Ev.send id en.method en.timeoutMs en.sentAt ∈ tr ∨ pendingFind st id = some en := by
  induction tr with
  | nil => intro st id en h; exact Or.inr h
  | cons e es ih =>
    intro st id en h
    rcases ih (stepEv st e) id en h with hmem | hstep
    · exact Or.inl (List.mem_cons_of_mem e hmem)
    · rcases pendingFind_step_source st e id en hstep with rfl | hp
      · exact Or.inl (List.mem_cons_self _ _)
      · exact Or.inr hp

/-- C2 — Timeout law.  If the entry for a sent id is still pending when
its timer fires (no matching response arrived within the budget), then:
the fire happens no earlier than `timeoutMs` after the recorded send
(`setTimeout` never runs early); the promise is rejected with the timeout
error carrying the method name and the budget; the pending entry is
removed in the same step; and a response arriving for that id afterwards
is discarded with no effect. -/
theorem rpc_timeout_law (tr : List Ev) (id : String) (en : PendingEntry) (now : Nat)
    (ok : Bool) (m : String)
    (hv : validFrom initialState (tr ++ [Ev.fire id now]) = true)
    (hfind : pendingFind (runEvents initialState tr) id = some en) :
    Ev.send id en.method en.timeoutMs en.sentAt ∈ tr ∧
    en.sentAt + en.timeoutMs ≤ now ∧
    (runEvents initialState (tr ++ [Ev.fire id now])).settles =
      (runEvents initialState tr).settles
        ++ [Settle.rejected id (timeoutMessage en.timeoutMs en.method)] ∧
    isPending (runEvents initialState (tr ++ [Ev.fire id now])) id = false ∧
    onRpcResponse (runEvents initialState (tr ++ [Ev.fire id now])) id ok m =
      runEvents initialState (tr ++ [Ev.fire id now]) := by
  have hsend : Ev.send id en.method en.timeoutMs en.sentAt ∈ tr := by
    rcases pending_entry_has_send tr initialState id en hfind with h | h
    · exact h
    · simp [pendingFind, initialState] at h
  have hsplit := validFrom_append tr [Ev.fire id now] initialState
  rw [hv] at hsplit
  have hfireOk : evOk (runEvents initialState tr) (Ev.fire id now) = true := by
    have h2 : validFrom (runEvents initialState tr) [Ev.fire id now] = true :=
      (Bool.and_eq_true _ _).mp hsplit.symm |>.2
    simp only [validFrom, Bool.and_eq_true] at h2
    exact h2.1
  have hle : en.sentAt + en.timeoutMs ≤ now := by
    rw [evOk, hfind] at hfireOk
    simpa using hfireOk
  have hrun : runEvents initialState (tr ++ [Ev.fire id now]) =
      timerFire (runEvents initialState tr) id := by
    rw [runEvents_append]
    rfl
  have hfire : timerFire (runEvents initialState tr) id =
      { runEvents initialState tr with
        pending := erasePending (runEvents initialState tr).pending id,
        settles := (runEvents initialState tr).settles
          ++ [Settle.rejected id (timeoutMessage en.timeoutMs en.method)] } := by
    unfold timerFire
    rw [hfind]
  have hnotpending : isPending (runEvents initialState (tr ++ [Ev.fire id now])) id = false := by
    rw [hrun, hfire]
    simp [isPending, pendingFind, find?_erase_self]
  refine ⟨hsend, hle, ?_, hnotpending, ?_⟩
  · rw [hrun, hfire]
  · exact onRpcResponse_of_not_pending _ id ok m hnotpending

def demoTraceT : List Ev := [Ev.ready, Ev.send "b" "init" 10 0]

theorem awaitReady_not_ready (st : BridgeState) (h : st.isReady = false) :
    awaitReady st = ({ st with readyWaiters := st.readyWaiters + 1 }, false) := by
  unfold awaitReady
  rw [h]
  simp

theorem rpc_timeout_law_witness :
    validFrom initialState (demoTraceT ++ [Ev.fire "b" 10]) = true ∧
    pendingFind (runEvents initialState demoTraceT) "b" = some ⟨"init", 10, 0⟩ ∧
    (Ev.send "b" "init" 10 0 ∈ demoTraceT ∧
     0 + 10 ≤ 10 ∧
     (runEvents initialState (demoTraceT ++ [Ev.fire "b" 10])).settles =
       (runEvents initialState demoTraceT).settles
         ++ [Settle.rejected "b" (timeoutMessage 10 "init")] ∧
     isPending (runEvents initialState (demoTraceT ++ [Ev.fire "b" 10])) "b" = false ∧
     onRpcResponse (runEvents initialState (demoTraceT ++ [Ev.fire "b" 10])) "b" true "" =
       runEvents initialState (demoTraceT ++ [Ev.fire "b" 10])) :=
  ⟨by decide, by decide,
   rpc_timeout_law demoTraceT "b" ⟨"init", 10, 0⟩ 10 true "" (by decide) (by decide)⟩

end WebViewBridge

/-- C9 counterexample — `CerbosProvider.checkResources` invoked before the
PDP has signaled readiness does not suspend the caller: it returns an
immediately rejected promise (`Cerbos PDP not initialized`) instead of
queueing the request. -/
theorem not_ready_checkResources_rejects_immediately :
    Provider.checkResourcesCall false "r1" =
      Provider.CallOutcome.rejectedNow "Cerbos PDP not initialized" ∧
    Provider.checkResourcesCall false "r1" ≠ Provider.CallOutcome.queuedPending "r1" :=
  ⟨rfl, by decide⟩

/-- C9 amended — calls issued through the embedded WebView handle (the
`postRpc` path used by `init`, `checkResource`, `checkResources` and
`planResources`) do suspend before readiness: `awaitReady` registers a
ready-waiter and neither settles any promise nor touches the pending map,
so the caller stays pending until readiness (then response or timeout).
`CerbosProvider.checkResources` (`CerbosContext.tsx`), by contrast,
rejects immediately with `Cerbos PDP not initialized` when called before
the PDP is ready. -/
theorem calls_before_ready_suspend_only_on_webview_path
    (st : WebViewBridge.BridgeState) (h : st.isReady = false) :
    (WebViewBridge.awaitReady st).2 = false ∧
    (WebViewBridge.awaitReady st).1.readyWaiters = st.readyWaiters + 1 ∧
    (WebViewBridge.awaitReady st).1.settles = st.settles ∧
    (WebViewBridge.awaitReady st).1.pending = st.pending ∧
    Provider.checkResourcesCall false "r" =
      Provider.CallOutcome.rejectedNow "Cerbos PDP not initialized" := by
  rw [WebViewBridge.awaitReady_not_ready st h]
  exact ⟨rfl, rfl, rfl, rfl, rfl⟩

theorem calls_before_ready_suspend_only_on_webview_path_witness :
    WebViewBridge.initialState.isReady = false ∧
    ((WebViewBridge.awaitReady WebViewBridge.initialState).2 = false ∧
     (WebViewBridge.awaitReady WebViewBridge.initialState).1.readyWaiters =
       WebViewBridge.initialState.readyWaiters + 1 ∧
     (WebViewBridge.awaitReady WebViewBridge.initialState).1.settles =
       WebViewBridge.initialState.settles ∧
     (WebViewBridge.awaitReady WebViewBridge.initialState).1.pending =
       WebViewBridge.initialState.pending ∧
     Provider.checkResourcesCall false "r" =
       Provider.CallOutcome.rejectedNow "Cerbos PDP not initialized") :=
  ⟨by decide,
   calls_before_ready_suspend_only_on_webview_path WebViewBridge.initialState (by decide)⟩

/-- C4 counterexample — with 25 requests pending in one batch window and
no responses arriving between firings of the batch timer, the second
forwarded batch is identical to the first: it again contains the oldest
10 pending requests (including request `r1`, already forwarded) and does
not contain `r11`.  The scheduler therefore does not select
"oldest-by-arrival unforwarded" requests, and the three batches of the
claim (10, 10, 5 covering all 25) do not materialize. -/
theorem batch_scheduler_reforwards_same_requests :
    Provider.twoBatchesNoResponses.sentBatches =
      [Provider.ids25.take 10, Provider.ids25.take 10] ∧
    "r1" ∈ Provider.twoBatchesNoResponses.sentBatches.getD 1 [] ∧
    "r11" ∉ Provider.twoBatchesNoResponses.sentBatches.getD 1 [] ∧
    Provider.twoBatchesNoResponses.requests = Provider.ids25 := by
  exact ⟨by decide, by decide, by decide, by decide⟩

/-- C4 amended — each firing of `processBatch` forwards the oldest (up to
`maxBatchSize = 10`) requests still *pending*, without tracking which
were already forwarded; a request leaves the pending map only on
response, error, or timeout.  Consequently, when each forwarded batch's
requests are all answered before the next firing, 25 requests produce
exactly 3 forwarded batches of 10, 10 and 5 requests in arrival order,
partitioning the 25, and every one of the 25 promises is resolved
individually by its own response (a request whose response never arrives
is instead rejected individually by its own timeout, independent of batch
membership); with no responses in between, each firing re-forwards the
same oldest 10. -/
theorem batch_scheduler_batches_10_10_5_when_responses_arrive :
    Provider.threeBatchesWithResponses.sentBatches =
      [Provider.ids25.take 10, (Provider.ids25.drop 10).take 10, Provider.ids25.drop 20] ∧
    Provider.threeBatchesWithResponses.sentBatches.map List.length = [10, 10, 5] ∧
    Provider.threeBatchesWithResponses.requests = [] ∧
    Provider.threeBatchesWithResponses.settles =
      Provider.ids25.map (fun id => (id, true)) ∧
    (Provider.requestTimeoutFire (Provider.processBatch 10 Provider.st25) "r1").settles =
      [("r1", false)] ∧
    "r1" ∉ (Provider.requestTimeoutFire (Provider.processBatch 10 Provider.st25) "r1").requests := by
  exact ⟨by decide, by decide, by decide, by decide, by decide, by decide⟩

namespace SandboxBridge

theorem vstr_falsy_false (u : String) (hu : u ≠ "") : (JsVal.vstr u).falsy = false := by
  simp [JsVal.falsy, hu]

theorem find?_keyfree (base : List (JsVal × UploadSession)) (k : JsVal)
    (hb : ∀ q ∈ base, (q.1 == k) = false) :
    base.find? (fun p => p.1 == k) = none := by
  rw [List.find?_eq_none]
  intro x hx
  rw [hb x hx]
  simp

theorem find?_append_keyed (base : List (JsVal × UploadSession)) (k : JsVal)
    (s : UploadSession) (hb : ∀ q ∈ base, (q.1 == k) = false) :
    (base ++ [(k, s)]).find? (fun p => p.1 == k) = some (k, s) := by
  rw [List.find?_append, find?_keyfree base k hb]
  simp [List.find?]

theorem lookupUpload_keyed (bw : Option String) (base : List (JsVal × UploadSession))
    (k : JsVal) (s : UploadSession) (hb : ∀ q ∈ base, (q.1 == k) = false) :
    lookupUpload ⟨bw, base ++ [(k, s)]⟩ k = some s := by
  unfold lookupUpload
  rw [show (BridgeGlobals.mk bw (base ++ [(k, s)])).wasmUploads = base ++ [(k, s)] from rfl,
    find?_append_keyed base k s hb]
  rfl

theorem lookupUpload_keyfree (bw : Option String) (base : List (JsVal × UploadSession))
    (k : JsVal) (hb : ∀ q ∈ base, (q.1 == k) = false) :
    lookupUpload ⟨bw, base⟩ k = none := by
  unfold lookupUpload
  rw [show (BridgeGlobals.mk bw base).wasmUploads = base from rfl, find?_keyfree base k hb]
  rfl

theorem mapSet_fresh_keyed (base : List (JsVal × UploadSession)) (k : JsVal)
    (s : UploadSession) (hb : ∀ q ∈ base, (q.1 == k) = false) :
    mapSet base k s = base ++ [(k, s)] := by
  unfold mapSet
  rw [if_neg]
  intro hany
  rcases List.any_eq_true.mp hany with ⟨q, hq, hqk⟩
  rw [hb q hq] at hqk
  exact absurd hqk (by simp)

theorem map_keyed_id (base : List (JsVal × UploadSession)) (k : JsVal) (s2 : UploadSession)
    (hb : ∀ q ∈ base, (q.1 == k) = false) :
    base.map (fun p => if p.1 == k then (k, s2) else p) = base := by
  conv_rhs => rw [← List.map_id base]
  apply List.map_congr_left
  intro q hq
  rw [hb q hq]
  simp

theorem mapSet_append_keyed (base : List (JsVal × UploadSession)) (k : JsVal)
    (s s2 : UploadSession) (hb : ∀ q ∈ base, (q.1 == k) = false) :
    mapSet (base ++ [(k, s)]) k s2 = base ++ [(k, s2)] := by
  unfold mapSet
  rw [if_pos]
  · rw [List.map_append, map_keyed_id base k s2 hb]
    simp
  · rw [List.any_append]
    simp

theorem mapDelete_append_keyed (base : List (JsVal × UploadSession)) (k : JsVal)
    (s : UploadSession) (hb : ∀ q ∈ base, (q.1 == k) = false) :
    mapDelete (base ++ [(k, s)]) k = base := by
  unfold mapDelete
  rw [List.filter_append]
  have h1 : base.filter (fun p => p.1 != k) = base := by
    apply List.filter_eq_self.mpr
    intro q hq
    show (!(q.1 == k)) = true
    rw [hb q hq]
    rfl
  have h2 : [(k, s)].filter (fun p => p.1 != k) = [] := by simp
  rw [h1, h2, List.append_nil]

end SandboxBridge

/-- C6 — Two `wasmUpload` calls sharing an `uploadId` but declaring
different `total` values: the second call (otherwise well-formed) fails
with the `Mismatched upload total` protocol error, and the bridge state —
in particular the first session's fixed total, stored chunks and received
count — is left exactly as it was. -/
theorem wasmUpload_total_mismatch_preserves_state (g : SandboxBridge.BridgeGlobals)
    (u : String) (sess : SandboxBridge.UploadSession) (i t2 : Int) (c : String)
    (hfound : SandboxBridge.lookupUpload g (SandboxBridge.JsVal.vstr u) = some sess)
    (hu : u ≠ "") (ht : 0 < t2) (hi : 0 ≤ i) (hit : i < t2)
    (hne : sess.total ≠ t2) :
    SandboxBridge.wasmUpload g
        ⟨SandboxBridge.JsVal.vstr u, SandboxBridge.JsVal.vint i,
         SandboxBridge.JsVal.vint t2, SandboxBridge.JsVal.vstr c⟩ =
      (g, Except.error "Mismatched upload total") := by
  have hc1 : ((SandboxBridge.JsVal.vstr u).falsy || decide (t2 ≤ 0)) = false := by
    rw [SandboxBridge.vstr_falsy_false u hu]
    simp
    omega
  have hc2 : (decide (i < 0) || decide (t2 ≤ i)) = false := by
    simp
    omega
  simp only [SandboxBridge.wasmUpload]
  rw [hfound, hc1, hc2]
  simp only [Bool.false_eq_true, if_false]
  rw [if_pos hne]

def demoMismatchGlobals : SandboxBridge.BridgeGlobals :=
  { bundledWasmBase64 := none,
    wasmUploads :=
      [(SandboxBridge.JsVal.vstr "up",
        { total := 3, chunks := [some "A", none, none], received := 1 })] }

theorem wasmUpload_total_mismatch_preserves_state_witness :
    SandboxBridge.lookupUpload demoMismatchGlobals (SandboxBridge.JsVal.vstr "up") =
      some { total := 3, chunks := [some "A", none, none], received := 1 } ∧
    SandboxBridge.wasmUpload demoMismatchGlobals
        ⟨SandboxBridge.JsVal.vstr "up", SandboxBridge.JsVal.vint 1,
         SandboxBridge.JsVal.vint 4, SandboxBridge.JsVal.vstr "B"⟩ =
      (demoMismatchGlobals, Except.error "Mismatched upload total") :=
  ⟨by decide,
   wasmUpload_total_mismatch_preserves_state demoMismatchGlobals "up"
     { total := 3, chunks := [some "A", none, none], received := 1 } 1 4 "B"
     (by decide) (by decide) (by decide) (by decide) (by decide) (by decide)⟩

namespace SandboxBridge

theorem mem_mapSet (l : List (JsVal × UploadSession)) (k : JsVal) (s : UploadSession)
    (q : JsVal × UploadSession) (hq : q ∈ mapSet l k s) : q ∈ l ∨ q = (k, s) := by
  unfold mapSet at hq
  by_cases hany : l.any (fun p => p.1 == k) = true
  · rw [if_pos hany] at hq
    rcases List.mem_map.mp hq with ⟨p, hp, hpq⟩
    by_cases hpk : (p.1 == k) = true
    · rw [if_pos hpk] at hpq
      exact Or.inr hpq.symm
    · rw [if_neg hpk] at hpq
      exact Or.inl (hpq ▸ hp)
  · rw [if_neg hany] at hq
    rcases List.mem_append.mp hq with h | h
    · exact Or.inl h
    · exact Or.inr (List.mem_singleton.mp h)

theorem mem_mapDelete (l : List (JsVal × UploadSession)) (k : JsVal)
    (q : JsVal × UploadSession) (hq : q ∈ mapDelete l k) : q ∈ l :=
  (List.mem_filter.mp hq).1

theorem lookupUpload_mem (g : BridgeGlobals) (k : JsVal) (u : UploadSession)
    (h : lookupUpload g k = some u) : (k, u) ∈ g.wasmUploads := by
  unfold lookupUpload at h
  cases hf : g.wasmUploads.find? (fun p => p.1 == k) with
  | none => rw [hf] at h; simp at h
  | some q =>
    rw [hf] at h
    have hq1 : q.1 = k := by simpa using List.find?_some hf
    have hq2 : q.2 = u := by simpa using h
    have hmem := List.mem_of_find?_eq_some hf
    have : q = (k, u) := by
      cases q
      simp at hq1 hq2
      simp [hq1, hq2]
    exact this ▸ hmem

/-- C10 — `wasmUpload` parameter safety.  If the parameters are invalid
(falsy/missing `uploadId`, non-integer `index` or `total`,
`total <= 0`, non-string `chunk`, or `index` outside `[0, total)`) the
call throws one of the two validation errors before any session state is
created or mutated (the returned globals are exactly the input globals).
Conversely, on well-formed states every successful call passed the full
validation, its chunk write lands strictly inside the bounds of the slot
array allocated for that session, and well-formedness is preserved. -/
theorem wasmUpload_validation_safety (g : BridgeGlobals) (p : WasmUploadParams)
    (hwf : globalsWF g) :
    (paramsValid p = false →
      wasmUpload g p = (g, Except.error "Invalid wasmUpload params") ∨
      wasmUpload g p = (g, Except.error "Invalid upload index")) ∧
    (∀ (g2 : BridgeGlobals) (r : UploadResult), wasmUpload g p = (g2, Except.ok r) →
      paramsValid p = true ∧
      (∃ i : Int, p.index = JsVal.vint i ∧
        i.toNat < (targetSession g p).chunks.length) ∧
      globalsWF g2) := by
  rcases p with ⟨uid, pidx, ptot, pchk⟩
  by_cases hmain : ∃ i t c, pidx = JsVal.vint i ∧ ptot = JsVal.vint t ∧ pchk = JsVal.vstr c
  case neg =>
    have herr : wasmUpload g ⟨uid, pidx, ptot, pchk⟩ =
        (g, Except.error "Invalid wasmUpload params") := by
      cases pidx <;> cases ptot <;> cases pchk <;>
        first
          | rfl
          | (exact absurd ⟨_, _, _, rfl, rfl, rfl⟩ hmain)
    have hpv : paramsValid ⟨uid, pidx, ptot, pchk⟩ = false := by
      cases pidx <;> cases ptot <;> cases pchk <;>
        first
          | rfl
          | (exact absurd ⟨_, _, _, rfl, rfl, rfl⟩ hmain)
    refine ⟨fun _ => Or.inl herr, ?_⟩
    intro g2 r h
    rw [herr] at h
    injection h with hg hr
    exact absurd hr (by simp)
  case pos =>
  obtain ⟨i, t, c, rfl, rfl, rfl⟩ := hmain
  by_cases h1 : (uid.falsy || decide (t ≤ 0)) = true
  · have herr : wasmUpload g ⟨uid, JsVal.vint i, JsVal.vint t, JsVal.vstr c⟩ =
        (g, Except.error "Invalid wasmUpload params") := by
      simp only [wasmUpload]
      rw [if_pos h1]
    have hpv : paramsValid ⟨uid, JsVal.vint i, JsVal.vint t, JsVal.vstr c⟩ = false := by
      rcases Bool.or_eq_true_iff.mp h1 with hf | ht0
      · simp [paramsValid, hf]
      · have : ¬(0 < t) := by simpa using ht0
        simp [paramsValid, this]
    refine ⟨fun _ => Or.inl herr, ?_⟩
    intro g2 r h
    rw [herr] at h
    injection h with hg hr
    exact absurd hr (by simp)
  · by_cases h2 : (decide (i < 0) || decide (t ≤ i)) = true
    · have herr : wasmUpload g ⟨uid, JsVal.vint i, JsVal.vint t, JsVal.vstr c⟩ =
          (g, Except.error "Invalid upload index") := by
        simp only [wasmUpload]
        rw [if_neg h1, if_pos h2]
      have hpv : paramsValid ⟨uid, JsVal.vint i, JsVal.vint t, JsVal.vstr c⟩ = false := by
        rcases Bool.or_eq_true_iff.mp h2 with hneg | hti
        · have : ¬(0 ≤ i) := by simpa using hneg
          simp [paramsValid, this]
        · have : ¬(i < t) := by simpa using hti
          simp [paramsValid, this]
      refine ⟨fun _ => Or.inr herr, ?_⟩
      intro g2 r h
      rw [herr] at h
      injection h with hg hr
      exact absurd hr (by simp)
    · have hfal : uid.falsy = false := by
        rcases Bool.or_eq_false_iff.mp (Bool.not_eq_true _ |>.mp h1) with ⟨ha, _⟩
        exact ha
      have ht : 0 < t := by
        rcases Bool.or_eq_false_iff.mp (Bool.not_eq_true _ |>.mp h1) with ⟨_, hb⟩
        simpa using hb
      have hi0 : 0 ≤ i := by
        rcases Bool.or_eq_false_iff.mp (Bool.not_eq_true _ |>.mp h2) with ⟨ha, _⟩
        simpa using ha
      have hit : i < t := by
        rcases Bool.or_eq_false_iff.mp (Bool.not_eq_true _ |>.mp h2) with ⟨_, hb⟩
        simpa using hb
      have hpv : paramsValid ⟨uid, JsVal.vint i, JsVal.vint t, JsVal.vstr c⟩ = true := by
        simp [paramsValid, hfal]
        exact ⟨⟨ht, hi0⟩, hit⟩
      refine ⟨fun hc => absurd hpv (by rw [hc]; simp), ?_⟩
      intro g2 r h
      simp only [wasmUpload] at h
      rw [if_neg h1, if_neg h2] at h
      have hgetDrep : (List.replicate t.toNat (none : Option String)).getD i.toNat none = none := by
        rw [List.getD_eq_getElem?_getD, List.getElem?_replicate]
        by_cases hlt : i.toNat < t.toNat <;> simp [hlt]
      cases hlk : lookupUpload g uid with
      | some sess =>
        rw [hlk] at h
        dsimp only at h
        have hsWF : sessionWF sess := hwf _ (lookupUpload_mem g uid sess hlk)
        have htarget : targetSession g ⟨uid, JsVal.vint i, JsVal.vint t, JsVal.vstr c⟩ = sess := by
          unfold targetSession
          rw [hlk]
        by_cases htot : sess.total ≠ t
        · rw [if_pos htot] at h
          injection h with hg hr
          exact absurd hr (by simp)
        · rw [if_neg htot] at h
          have htt : sess.total = t := not_not.mp htot
          refine ⟨hpv, ⟨i, rfl, ?_⟩, ?_⟩
          · rw [htarget, hsWF.2, htt]
            omega
          · split at h <;> split at h <;>
              (injection h with hg hr; subst hg; intro q hq) <;>
              first
                | exact hwf q (mem_mapDelete _ _ q hq)
                | (rcases mem_mapSet _ _ _ q hq with hmem | hq2
                   · exact hwf q hmem
                   · subst hq2
                     refine ⟨hsWF.1, ?_⟩
                     show (sess.chunks.set i.toNat (some c)).length = sess.total.toNat
                     rw [List.length_set, hsWF.2])
      | none =>
        rw [hlk] at h
        dsimp only at h
        rw [if_neg (by simp)] at h
        rw [if_pos hgetDrep] at h
        have htarget : targetSession g ⟨uid, JsVal.vint i, JsVal.vint t, JsVal.vstr c⟩ =
            { total := t, chunks := List.replicate t.toNat none, received := 0 } := by
          unfold targetSession
          rw [hlk]
        have hfreshWF : sessionWF { total := t, chunks := List.replicate t.toNat (none : Option String), received := 0 } :=
          ⟨ht, List.length_replicate _ _⟩
        refine ⟨hpv, ⟨i, rfl, ?_⟩, ?_⟩
        · rw [htarget]
          show i.toNat < (List.replicate t.toNat (none : Option String)).length
          rw [List.length_replicate]
          omega
        · split at h
          · injection h with hg hr
            subst hg
            intro q hq
            rcases mem_mapSet _ _ _ q (mem_mapDelete _ _ q hq) with hmem | hq2
            · exact hwf q hmem
            · subst hq2
              exact hfreshWF
          · injection h with hg hr
            subst hg
            intro q hq
            rcases mem_mapSet _ _ _ q hq with hmem | hq2
            · rcases mem_mapSet _ _ _ q hmem with hmem2 | hq3
              · exact hwf q hmem2
              · subst hq3
                exact hfreshWF
            · subst hq2
              refine ⟨ht, ?_⟩
              show ((List.replicate t.toNat (none : Option String)).set i.toNat (some c)).length = t.toNat
              rw [List.length_set, List.length_replicate]

theorem wasmUpload_validation_safety_witness :
    globalsWF emptyGlobals ∧
    ((paramsValid ⟨JsVal.vundef, JsVal.vint 0, JsVal.vint 1, JsVal.vstr "Z"⟩ = false →
        wasmUpload emptyGlobals ⟨JsVal.vundef, JsVal.vint 0, JsVal.vint 1, JsVal.vstr "Z"⟩ =
          (emptyGlobals, Except.error "Invalid wasmUpload params") ∨
        wasmUpload emptyGlobals ⟨JsVal.vundef, JsVal.vint 0, JsVal.vint 1, JsVal.vstr "Z"⟩ =
          (emptyGlobals, Except.error "Invalid upload index")) ∧
      (∀ (g2 : BridgeGlobals) (r : UploadResult),
        wasmUpload emptyGlobals ⟨JsVal.vundef, JsVal.vint 0, JsVal.vint 1, JsVal.vstr "Z"⟩ =
          (g2, Except.ok r) →
        paramsValid ⟨JsVal.vundef, JsVal.vint 0, JsVal.vint 1, JsVal.vstr "Z"⟩ = true ∧
        (∃ i : Int, (JsVal.vint 0 : JsVal) = JsVal.vint i ∧
          i.toNat <
            (targetSession emptyGlobals
              ⟨JsVal.vundef, JsVal.vint 0, JsVal.vint 1, JsVal.vstr "Z"⟩).chunks.length) ∧
        globalsWF g2)) :=
  ⟨fun q hq => absurd hq (List.not_mem_nil q),
   wasmUpload_validation_safety emptyGlobals
     ⟨JsVal.vundef, JsVal.vint 0, JsVal.vint 1, JsVal.vstr "Z"⟩
     (fun q hq => absurd hq (List.not_mem_nil q))⟩

end SandboxBridge

namespace SandboxBridge

theorem sessionFor_chunks_getD (done : List Nat) (t : Nat) (f : Nat → String) (i : Nat)
    (hi : i < t) :
    (sessionFor done t f).chunks.getD i none = if i ∈ done then some (f i) else none := by
  unfold sessionFor
  rw [List.getD_eq_getElem?_getD, List.getElem?_map, List.getElem?_range hi]
  rfl

theorem sessionFor_chunks_set (done : List Nat) (t : Nat) (f : Nat → String) (i : Nat)
    (hi : i < t) :
    (sessionFor done t f).chunks.set i (some (f i)) = (sessionFor (done ++ [i]) t f).chunks := by
  unfold sessionFor
  apply List.ext_getElem?
  intro n
  rw [List.getElem?_set, List.getElem?_map]
  by_cases hni : i = n
  · subst hni
    rw [if_pos rfl, List.length_map, List.length_range, if_pos hi, List.getElem?_map,
      List.getElem?_range hi, Option.map_some']
    have : i ∈ done ++ [i] := by simp
    rw [if_pos this]
  · rw [if_neg hni, List.getElem?_map]
    by_cases hn : n < t
    · rw [List.getElem?_range hn, Option.map_some', Option.map_some']
      have : (n ∈ done ++ [i]) ↔ n ∈ done := by
        simp only [List.mem_append, List.mem_singleton]
        constructor
        · intro hc
          rcases hc with hc | hc
          · exact hc
          · exact absurd hc.symm hni
        · exact Or.inl
      by_cases hnd : n ∈ done
      · rw [if_pos hnd, if_pos (this.mpr hnd)]
      · rw [if_neg hnd, if_neg (fun hx => hnd (this.mp hx))]
    · have h1 : (List.range t)[n]? = none :=
        List.getElem?_eq_none (by simpa [List.length_range] using Nat.le_of_not_lt hn)
      rw [h1]
      rfl

theorem sessionFor_complete_join (done : List Nat) (t : Nat) (f : Nat → String)
    (hnd : done.Nodup) (hsub : ∀ j ∈ done, j < t) (hlen : done.length = t) :
    joinChunks (sessionFor done t f).chunks = String.join ((List.range t).map f) := by
  have hperm : done.Perm (List.range t) := by
    apply List.Subperm.perm_of_length_le
    · exact List.subperm_of_subset hnd (fun x hx => List.mem_range.mpr (hsub x hx))
    · rw [hlen, List.length_range]
  have hmem : ∀ j ∈ List.range t, j ∈ done := fun j hj => hperm.mem_iff.mpr hj
  unfold joinChunks sessionFor
  rw [List.map_map]
  congr 1
  apply List.map_congr_left
  intro j hj
  simp [hmem j hj]

theorem fresh_session_eq_sessionFor (t : Nat) (f : Nat → String) :
    ({ total := (t : Int), chunks := List.replicate ((t : Int)).toNat none, received := 0 } :
        UploadSession) = sessionFor [] t f := by
  unfold sessionFor
  simp only [Int.toNat_natCast, List.not_mem_nil, if_false, List.length_nil]
  congr 1
  rw [List.map_const', List.length_range]

theorem wasmUpload_session_step (u : String) (t : Nat) (f : Nat → String) (i : Nat)
    (bw : Option String) (base uploads : List (JsVal × UploadSession)) (done : List Nat)
    (hu : u ≠ "") (ht : 0 < t) (hi : i < t) (hnew : i ∉ done)
    (hnd : done.Nodup) (hsub : ∀ j ∈ done, j < t)
    (hb : ∀ q ∈ base, (q.1 == JsVal.vstr u) = false)
    (hstate : uploads = base ++ [(JsVal.vstr u, sessionFor done t f)] ∨
      (done = [] ∧ uploads = base)) :
    wasmUpload ⟨bw, uploads⟩ ⟨JsVal.vstr u, JsVal.vint i, JsVal.vint t, JsVal.vstr (f i)⟩ =
      (if t ≤ done.length + 1 then
        (⟨some (String.join ((List.range t).map f)), base⟩, Except.ok UploadResult.done)
      else
        (⟨bw, base ++ [(JsVal.vstr u, sessionFor (done ++ [i]) t f)]⟩,
         Except.ok (UploadResult.progress ((done.length : Int) + 1) (t : Int)))) := by
  have hc1 : ((JsVal.vstr u).falsy || decide ((t : Int) ≤ 0)) = false := by
    rw [vstr_falsy_false u hu]
    simp
    omega
  have hc2 : (decide ((i : Int) < 0) || decide ((t : Int) ≤ (i : Int))) = false := by
    simp
    omega
  have hsfor : (sessionFor done t f).total = (t : Int) := rfl
  have hlen1 : done.length + 1 ≤ t := by
    have hsubp : (done ++ [i]).Subperm (List.range t) := by
      apply List.subperm_of_subset
      · simp [List.nodup_append, hnd, hnew]
      · intro x hx
        rcases List.mem_append.mp hx with hx | hx
        · exact List.mem_range.mpr (hsub x hx)
        · rw [List.mem_singleton.mp hx]
          exact List.mem_range.mpr hi
    have := hsubp.length_le
    simpa [List.length_range] using this
  rcases hstate with hstate | ⟨hdone, hstate⟩
  · subst hstate
    have hlk : lookupUpload ⟨bw, base ++ [(JsVal.vstr u, sessionFor done t f)]⟩
        (JsVal.vstr u) = some (sessionFor done t f) := lookupUpload_keyed bw base _ _ hb
    simp only [wasmUpload]
    rw [hc1, hc2, hlk]
    simp only [Bool.false_eq_true, if_false]
    rw [if_neg (by rw [hsfor]; exact fun hx => hx rfl)]
    rw [Int.toNat_natCast]
    rw [sessionFor_chunks_getD done t f i hi, if_neg hnew]
    rw [if_pos rfl]
    have hrecv : (sessionFor done t f).received + 1 = ((done.length : Int) + 1) := rfl
    rw [sessionFor_chunks_set done t f i hi]
    by_cases hfin : t ≤ done.length + 1
    · have hfinI : (sessionFor done t f).total ≤ (sessionFor done t f).received + 1 := by
        rw [hsfor, hrecv]
        omega
      rw [if_pos hfinI, if_pos hfin]
      have hlen : (done ++ [i]).length = t := by
        simp only [List.length_append, List.length_singleton]
        omega
      have hjoin : joinChunks (sessionFor (done ++ [i]) t f).chunks =
          String.join ((List.range t).map f) := by
        apply sessionFor_complete_join
        · simp [List.nodup_append, hnd, hnew]
        · intro j hj
          rcases List.mem_append.mp hj with hj | hj
          · exact hsub j hj
          · rw [List.mem_singleton.mp hj]
            exact hi
        · exact hlen
      rw [hjoin, mapDelete_append_keyed base _ _ hb]
    · have hfinI : ¬((sessionFor done t f).total ≤ (sessionFor done t f).received + 1) := by
        rw [hsfor, hrecv]
        omega
      rw [if_neg hfinI, if_neg hfin]
      rw [mapSet_append_keyed base _ _ _ hb]
      have hmk : UploadSession.mk ((t : Nat) : Int) (sessionFor (done ++ [i]) t f).chunks
          ((done.length : Int) + 1) = sessionFor (done ++ [i]) t f := by
        have h1 : ((done.length : Int) + 1) = (sessionFor (done ++ [i]) t f).received := by
          show ((done.length : Int) + 1) = (((done ++ [i]).length : Nat) : Int)
          simp
        have h2 : ((t : Nat) : Int) = (sessionFor (done ++ [i]) t f).total := rfl
        rw [h1, h2]
      rw [hrecv, hsfor, hmk]
  · subst hdone
    subst hstate
    have hlk : lookupUpload ⟨bw, uploads⟩ (JsVal.vstr u) = none :=
      lookupUpload_keyfree bw uploads _ hb
    have hrep : (sessionFor [] t f).chunks = List.replicate t (none : Option String) := by
      unfold sessionFor
      simp only [List.not_mem_nil, if_false]
      rw [List.map_const', List.length_range]
    simp only [wasmUpload]
    rw [hc1, hc2, hlk]
    simp only [Bool.false_eq_true, if_false]
    rw [if_neg (fun hx : (t : Int) ≠ (t : Int) => hx rfl)]
    rw [Int.toNat_natCast, Int.toNat_natCast]
    have hget : (List.replicate t (none : Option String)).getD i none = none := by
      rw [List.getD_eq_getElem?_getD, List.getElem?_replicate]
      by_cases hlt : i < t <;> simp [hlt]
    have hrecv1 : (if (List.replicate t (none : Option String)).getD i none = none
        then (0 : Int) + 1 else (0 : Int)) = 1 := by
      rw [if_pos hget]
      rfl
    rw [hrecv1]
    have hsetch : (List.replicate t (none : Option String)).set i (some (f i)) =
        (sessionFor ([] ++ [i]) t f).chunks := by
      rw [← hrep, sessionFor_chunks_set [] t f i hi]
    by_cases hfin : (t : Int) ≤ 1
    · have hfinN : t = 1 := by omega
      rw [if_pos hfin, if_pos (by simp [hfinN])]
      have hjoin : joinChunks (sessionFor ([] ++ [i]) t f).chunks =
          String.join ((List.range t).map f) := by
        apply sessionFor_complete_join
        · simp
        · intro j hj
          have hji : j = i := by simpa using hj
          rw [hji]
          exact hi
        · simp [hfinN]
      rw [hsetch, hjoin]
      rw [mapSet_fresh_keyed uploads _ _ hb, mapDelete_append_keyed uploads _ _ hb]
    · have hfinN : ¬(t ≤ ([] : List Nat).length + 1) := by
        simp only [List.length_nil]
        omega
      rw [if_neg hfin, if_neg hfinN]
      rw [mapSet_fresh_keyed uploads _ _ hb, mapSet_append_keyed uploads _ _ _ hb]
      rw [hsetch]
      have hsess : UploadSession.mk ((t : Nat) : Int) (sessionFor ([] ++ [i]) t f).chunks 1 =
          sessionFor ([] ++ [i]) t f := by
        have h1 : ((1 : Int)) = (sessionFor ([] ++ [i]) t f).received := by
          show (1 : Int) = (((([] : List Nat) ++ [i]).length : Nat) : Int)
          simp
        have h2 : ((t : Nat) : Int) = (sessionFor ([] ++ [i]) t f).total := rfl
        rw [h1, h2]
      have hone : ((List.length ([] : List Nat) : Int) + 1) = 1 := by simp
      rw [hsess, hone]


theorem runUpload_inv (u : String) (t : Nat) (f : Nat → String) (hu : u ≠ "") (ht : 0 < t) :
    ∀ (ord done : List Nat) (bw : Option String) (base uploads : List (JsVal × UploadSession)),
    (∀ q ∈ base, (q.1 == JsVal.vstr u) = false) →
    (uploads = base ++ [(JsVal.vstr u, sessionFor done t f)] ∨ (done = [] ∧ uploads = base)) →
    (done ++ ord).Perm (List.range t) →
    ord ≠ [] →
    runUpload u t f ⟨bw, uploads⟩ ord =
      some ⟨some (String.join ((List.range t).map f)), base⟩ := by
  intro ord
  induction ord with
  | nil =>
    intro done bw base uploads _ _ _ hne
    exact absurd rfl hne
  | cons i rest ih =>
    intro done bw base uploads hb hstate hperm _
    have hndall : (done ++ i :: rest).Nodup := hperm.symm.nodup (List.nodup_range t)
    have hnd : done.Nodup := (List.nodup_append.mp hndall).1
    have hdisj := (List.nodup_append.mp hndall).2.2
    have hnew : i ∉ done := fun hc => hdisj hc (List.mem_cons_self i rest)
    have hboundAll : ∀ j ∈ done ++ i :: rest, j < t := fun j hj =>
      List.mem_range.mp (hperm.subset hj)
    have hi : i < t := hboundAll i (by simp)
    have hsub : ∀ j ∈ done, j < t := fun j hj =>
      hboundAll j (List.mem_append.mpr (Or.inl hj))
    have hsteplem := wasmUpload_session_step u t f i bw base uploads done
      hu ht hi hnew hnd hsub hb hstate
    cases rest with
    | nil =>
      have hlen : done.length + 1 = t := by
        have := hperm.length_eq
        simp [List.length_append, List.length_range] at this
        omega
      rw [if_pos (by omega)] at hsteplem
      show runUpload u t f ⟨bw, uploads⟩ [i] = _
      simp only [runUpload, uploadCall]
      rw [hsteplem]
    | cons j rest2 =>
      have hlenall := hperm.length_eq
      have hlt : ¬(t ≤ done.length + 1) := by
        simp [List.length_append, List.length_range] at hlenall
        omega
      rw [if_neg hlt] at hsteplem
      simp only [runUpload, uploadCall]
      rw [hsteplem]
      have hperm2 : ((done ++ [i]) ++ j :: rest2).Perm (List.range t) := by
        rw [List.append_assoc]
        exact hperm
      exact ih (done ++ [i]) bw base _ hb (Or.inl rfl) hperm2 (by simp)

/-- C5 — Chunk reassembly.  For a fresh upload id, delivering one chunk
for each index `0 .. total-1` (payload `f i` at index `i`) in any arrival
order that is a permutation of the indexes: every call succeeds, and on
completion the bridge stores the reassembled payload — the concatenation
of the chunks in index order, independent of arrival order — and
discards the session. -/
theorem wasmUpload_reassembles_in_index_order (u : String) (t : Nat) (f : Nat → String)
    (ord : List Nat) (g0 : BridgeGlobals)
    (hu : u ≠ "") (ht : 0 < t) (hperm : ord.Perm (List.range t))
    (hfresh : lookupUpload g0 (JsVal.vstr u) = none) :
    runUpload u t f g0 ord =
      some ⟨some (String.join ((List.range t).map f)), g0.wasmUploads⟩ ∧
    lookupUpload ⟨some (String.join ((List.range t).map f)), g0.wasmUploads⟩
      (JsVal.vstr u) = none := by
  have hb : ∀ q ∈ g0.wasmUploads, (q.1 == JsVal.vstr u) = false := by
    have hf : g0.wasmUploads.find? (fun p => p.1 == JsVal.vstr u) = none := by
      unfold lookupUpload at hfresh
      cases hx : g0.wasmUploads.find? (fun p => p.1 == JsVal.vstr u) with
      | none => rfl
      | some q => rw [hx] at hfresh; simp at hfresh
    intro q hq
    have := List.find?_eq_none.mp hf q hq
    simpa using this
  constructor
  · have hne : ord ≠ [] := by
      intro hc
      subst hc
      have := hperm.length_eq
      simp [List.length_range] at this
      omega
    exact runUpload_inv u t f hu ht ord [] g0.bundledWasmBase64 g0.wasmUploads g0.wasmUploads
      hb (Or.inr ⟨rfl, rfl⟩) hperm hne
  · exact lookupUpload_keyfree _ _ _ hb

theorem wasmUpload_reassembles_in_index_order_witness :
    (runUpload "u1" 3 demoChunk emptyGlobals [2, 0, 1] =
       some ⟨some (String.join ((List.range 3).map demoChunk)), emptyGlobals.wasmUploads⟩ ∧
     lookupUpload ⟨some (String.join ((List.range 3).map demoChunk)), emptyGlobals.wasmUploads⟩
       (JsVal.vstr "u1") = none) ∧
    String.join ((List.range 3).map demoChunk) = "ABC" :=
  ⟨wasmUpload_reassembles_in_index_order "u1" 3 demoChunk [2, 0, 1] emptyGlobals
     (by decide) (by decide) (by decide) (by decide), by decide⟩

end SandboxBridge

end CerbosRN
